import Mathlib

/-!
Shallow embedding of the BuzyBeez orchestrator message plane
(src/server/swarm.ts, src/server/skills.ts).

Filesystem writes, event emissions and websocket broadcasts are modelled as
an explicit list of effects returned next to the new state; fallible
operations return Except.  Field names follow the TypeScript sources,
except that the keyword clash on the field named from forces from_ / to_.
-/

namespace BuzyBeez

/-- Connection record from types.ts: from, to, optional bidirectional flag
(none models an absent field, some false an explicit false). -/
structure Connection where
  from_ : String
  to_ : String
  bidirectional : Option Bool := none
deriving DecidableEq, Repr

/-- BeeConfig from types.ts. -/
structure BeeConfig where
  id : String
  name : String
  soul : Option String := none
  model : Option String := none
deriving DecidableEq, Repr

/-- SwarmConfig from types.ts. -/
structure SwarmConfig where
  id : String
  name : String
  bees : List BeeConfig
  connections : List Connection
deriving DecidableEq, Repr

/-- FileAttachment from types.ts. -/
structure FileAttachment where
  id : String
  filename : String
  mimeType : String
  size : Nat
  path : String
deriving DecidableEq, Repr

/-- Mail metadata from types.ts. -/
structure MailMetadata where
  type : String
  priority : Option String := none
  inReplyTo : Option String := none
deriving DecidableEq, Repr

/-- Mail record from types.ts. -/
structure Mail where
  id : String
  from_ : String
  to_ : String
  subject : String
  body : String
  timestamp : String
  metadata : MailMetadata
  status : String
  attachments : Option (List FileAttachment) := none
deriving DecidableEq, Repr

/-- Observable side effects of the server code: filesystem operations,
EventEmitter emissions and websocket broadcasts.  Paths are lists of
segments (path.join arguments). -/
inductive Effect where
  | mkdirp (dir : List String)
  | writeMailFile (dir : List String) (filename : String) (mail : Mail)
  | renameFile (src : List String) (dst : List String)
  | unlinkFile (name : String)
  | writeConfigFile (config : SwarmConfig)
  | saveHumanMailbox (inbox outbox : List Mail)
  | removeDir (dir : List String)
  | emit (event : String) (mail : Mail)
  | broadcastEv (event : String) (mail : Mail)
  | broadcastFailed (mail : Mail) (error : String)
  | broadcastConfig (event : String) (config : SwarmConfig)
  | logError (msg : String)
deriving DecidableEq, Repr

/-- In-memory human mailbox state of the API server (skills.ts module
globals humanInbox / humanOutbox). -/
structure GatewayState where
  humanInbox : List Mail
  humanOutbox : List Mail
deriving DecidableEq, Repr

/-- The utf-16 code units of one character, as javascript strings store
them: one unit below 0x10000, otherwise a surrogate pair. -/
def utf16Units (c : Char) : List Nat :=
  if c.toNat < 65536 then [c.toNat]
  else [55296 + (c.toNat - 65536) / 1024, 56320 + (c.toNat - 65536) % 1024]

/-- The utf-16 code units of a character list. -/
def utf16OfChars : List Char → List Nat
  | [] => []
  | c :: cs => utf16Units c ++ utf16OfChars cs

/-- Lexicographic comparison of code-unit lists, written so that it
evaluates inside the kernel. -/
def ltUnitList : List Nat → List Nat → Bool
  | _, [] => false
  | [], _ :: _ => true
  | a :: as, b :: bs => if a < b then true else if b < a then false else ltUnitList as bs

/-- Javascript string comparison a < b: lexicographic over utf-16 code
units. -/
def strLt (a b : String) : Bool :=
  ltUnitList (utf16OfChars a.data) (utf16OfChars b.data)

/-- Javascript String.endsWith, as a character-list suffix test. -/
def strEndsWith (s suffix : String) : Bool := suffix.data.isSuffixOf s.data

/-- SwarmManager.canSendMail (swarm.ts 382-386). -/
def canSendMail (cfg : SwarmConfig) (f t : String) : Bool :=
  cfg.connections.any (fun c => c.from_ == f && c.to_ == t)

/-- Mail filename scheme used by routeMail and sendToBee:
Date.now() + "-" + mail.id + ".json". -/
def mailFilename (now : Nat) (mail : Mail) : String :=
  toString now ++ "-" ++ mail.id ++ ".json"

/-- SwarmManager.routeMail (swarm.ts 389-412).  Throws (models as .error)
when no connection exists; otherwise emits mail:to-human for the human
recipient or writes the mail file directly into the inbox directory of the
recipient bee. -/
def routeMail (cfg : SwarmConfig) (dataDir : List String) (now : Nat)
    (mail : Mail) : Except String (List Effect) :=
  if !canSendMail cfg mail.from_ mail.to_ then
    .error ("No connection from " ++ mail.from_ ++ " to " ++ mail.to_)
  else if mail.to_ == "human" then
    .ok [.emit "mail:to-human" mail]
  else
    let inboxDir := dataDir ++ ["bees", mail.to_, "inbox"]
    .ok [.mkdirp inboxDir,
         .writeMailFile inboxDir (mailFilename now mail) mail,
         .emit "mail:routed" mail]

/-- routeOutboundMail (skills.ts 849-869).  Mail addressed to "human" is
appended to the in-memory human inbox with no topology check; anything
else goes through swarm.routeMail, whose exception is caught and turned
into a mail:failed broadcast. -/
def routeOutboundMail (cfg : SwarmConfig) (dataDir : List String) (now : Nat)
    (st : GatewayState) (mail : Mail) : GatewayState × List Effect :=
  if mail.to_ == "human" then
    let delivered := { mail with status := "delivered" }
    let st' := { st with humanInbox := st.humanInbox ++ [delivered] }
    (st', [.saveHumanMailbox st'.humanInbox st'.humanOutbox,
           .broadcastEv "mail:received" delivered])
  else
    match routeMail cfg dataDir now mail with
    | .ok effs => (st, effs ++ [.broadcastEv "mail:routed" mail])
    | .error msg =>
        (st, [.logError ("Mail routing failed: " ++ msg),
              .broadcastFailed { mail with status := "failed" } msg])

/-- A file sitting in a bee outbox: its name and, when it can be read and
parsed as JSON, the mail it contains (none models a read or parse failure). -/
structure OutboxFile where
  name : String
  contents : Option Mail
deriving DecidableEq, Repr

/-- Whether the outbox watcher handler removed the file from the outbox. -/
inductive FileOutcome where
  | removed
  | remains
deriving DecidableEq, Repr

/-- The per-file handler installed by watchBeeOutbox (skills.ts 827-842):
skip non-json names; read + parse, unlink only after a successful parse,
then route; a read or parse failure is caught and only logged, leaving the
file in the outbox. -/
def processOutboxFile (cfg : SwarmConfig) (dataDir : List String) (now : Nat)
    (st : GatewayState) (file : OutboxFile) :
    GatewayState × List Effect × FileOutcome :=
  if !strEndsWith file.name ".json" then (st, [], .remains)
  else
    match file.contents with
    | none => (st, [.logError "Error processing outbox file"], .remains)
    | some mail =>
        let (st', effs) := routeOutboundMail cfg dataDir now st mail
        (st', .unlinkFile file.name :: effs, .removed)

/-- Sequential processing of the files of one outbox in listing order, as
the watcher does; returns the final state, the concatenated effects and
the files still left in the outbox. -/
def processOutboxFiles (cfg : SwarmConfig) (dataDir : List String) (now : Nat)
    (st : GatewayState) : List OutboxFile → GatewayState × List Effect × List OutboxFile
  | [] => (st, [], [])
  | f :: rest =>
      let r1 := processOutboxFile cfg dataDir now st f
      let r2 := processOutboxFiles cfg dataDir now r1.1 rest
      (r2.1, r1.2.1 ++ r2.2.1,
       (match r1.2.2 with | .remains => [f] | .removed => []) ++ r2.2.2)

/-- Result of the POST /api/mail/send handler. -/
inductive SendResult where
  | badRequest (error : String)
  | serverError (error : String)
  | success (mail : Mail)
deriving DecidableEq, Repr

/-- Attachment metadata resolution loop of the mail.send handler
(skills.ts 1294-1306): the id of the first attachment whose meta file is
missing aborts with a 400. -/
def lookupAttachments (fileMeta : String → Option FileAttachment) :
    List String → Except String (List FileAttachment)
  | [] => .ok []
  | fid :: rest =>
      match fileMeta fid with
      | none => .error fid
      | some meta => (lookupAttachments fileMeta rest).map (meta :: ·)

/-- POST /api/mail/send (skills.ts 1281-1332).  Empty strings model the
falsy guard on to / subject / body; newId models uuidv4(), nowIso the
timestamp, fileMeta the on-disk attachment metadata store.  The connection
check precedes the outbox push; a routeMail exception after the push is
caught by the surrounding try and answered with a 500. -/
def mailSend (cfg : SwarmConfig) (dataDir : List String) (now : Nat)
    (newId nowIso : String) (fileMeta : String → Option FileAttachment)
    (st : GatewayState) (to_ subject body : String)
    (attachments : Option (List String)) :
    GatewayState × List Effect × SendResult :=
  if to_ == "" || subject == "" || body == "" then
    (st, [], .badRequest "to, subject, and body required")
  else if !canSendMail cfg "human" to_ then
    (st, [], .badRequest ("No connection from human to " ++ to_))
  else
    let resolved : Except String (Option (List FileAttachment)) :=
      match attachments with
      | none => .ok none
      | some [] => .ok none
      | some ids => (lookupAttachments fileMeta ids).map some
    match resolved with
    | .error fid => (st, [], .badRequest ("Attachment not found: " ++ fid))
    | .ok resolvedAttachments =>
        let mail : Mail :=
          { id := newId, from_ := "human", to_ := to_, subject := subject,
            body := body, timestamp := nowIso,
            metadata := { type := "human", priority := some "normal" },
            status := "queued", attachments := resolvedAttachments }
        let st' := { st with humanOutbox := st.humanOutbox ++ [mail] }
        let saveEff := Effect.saveHumanMailbox st'.humanInbox st'.humanOutbox
        match routeMail cfg dataDir now mail with
        | .error msg => (st', [saveEff], .serverError msg)
        | .ok effs =>
            (st', saveEff :: (effs ++ [.broadcastEv "mail:sent" mail]),
             .success mail)

/-- MailboxManager.sendToBee (skills.ts 476-507): builds the mail, writes
it directly into the fixed inbox directory, then records it in the human
outbox. -/
def sendToBee (dataDir : List String) (now : Nat) (newId nowIso : String)
    (st : GatewayState) (subject body : String) :
    GatewayState × List Effect × Mail :=
  let mail : Mail :=
    { id := newId, from_ := "human-mailbox", to_ := "bee-001",
      subject := subject, body := body, timestamp := nowIso,
      metadata := { type := "human", priority := some "normal" },
      status := "queued" }
  let inboxDir := dataDir ++ ["inbox"]
  let st' := { st with humanOutbox := st.humanOutbox ++ [mail] }
  (st', [.mkdirp inboxDir,
         .writeMailFile inboxDir (mailFilename now mail) mail,
         .saveHumanMailbox st'.humanInbox st'.humanOutbox], mail)

/-- SwarmManager.setConfig (swarm.ts 60-63): store and persist, with no
validation of any kind. -/
def setConfig (config : SwarmConfig) : SwarmConfig × List Effect :=
  (config, [.writeConfigFile config])

/-- PUT /api/swarm (skills.ts 901-909): setConfig followed by the
swarm:updated broadcast. -/
def putSwarm (config : SwarmConfig) : SwarmConfig × List Effect :=
  let r := setConfig config
  (r.1, r.2 ++ [.broadcastConfig "swarm:updated" r.1])

/-- Modelled from the spec (§4.7): the validation the Swarm Registry is
said to perform before persistence — unique ids, no connection referencing
an unknown node, no self-edge.  Stated here only to compare against the
source setConfig, which does not implement it. -/
def specValidConfig (cfg : SwarmConfig) : Prop :=
  (cfg.bees.map (·.id)).Nodup ∧
  ∀ c ∈ cfg.connections,
    c.from_ ∈ "human" :: cfg.bees.map (·.id) ∧
    c.to_ ∈ "human" :: cfg.bees.map (·.id) ∧
    c.from_ ≠ c.to_

instance (cfg : SwarmConfig) : Decidable (specValidConfig cfg) := by
  unfold specValidConfig; infer_instance

/-- SwarmManager.removeBee (swarm.ts 115-132).  The initial stopBee throws
when the bee is unknown; otherwise the bee and every connection touching
it are filtered out of the config, which is persisted, and the data
directory of the bee is removed. -/
def removeBee (cfg : SwarmConfig) (dataDir : List String) (beeId : String) :
    Except String (SwarmConfig × List Effect) :=
  match cfg.bees.find? (fun b => b.id == beeId) with
  | none => .error ("Bee " ++ beeId ++ " not found")
  | some _ =>
      let cfg' := { cfg with
        bees := cfg.bees.filter (fun b => b.id != beeId),
        connections :=
          cfg.connections.filter (fun c => c.from_ != beeId && c.to_ != beeId) }
      .ok (cfg', [.writeConfigFile cfg', .removeDir (dataDir ++ ["bees", beeId])])

/-- First matching connection, as connections.find with the from/to
predicate used throughout swarm.ts. -/
def findConn (conns : List Connection) (f t : String) : Option Connection :=
  conns.find? (fun c => c.from_ == f && c.to_ == t)

/-- In-place mutation existsConn.bidirectional = true on the object
returned by find: sets the flag on the first matching entry of the list. -/
def setBidirTrueFirst : List Connection → String → String → List Connection
  | [], _, _ => []
  | c :: rest, f, t =>
      if c.from_ == f && c.to_ == t then
        { c with bidirectional := some true } :: rest
      else c :: setBidirTrueFirst rest f t

/-- SwarmManager.addConnection (swarm.ts 278-309).  Both find calls of the
bidirectional branch run on the incoming list, as in the source, where
both lookups precede the pushes and mutations. -/
def addConnection (conns : List Connection) (f t : String)
    (bidirectional : Bool) : List Connection :=
  if bidirectional then
    let afterForward :=
      match findConn conns f t with
      | none => conns ++ [{ from_ := f, to_ := t, bidirectional := some true }]
      | some _ => setBidirTrueFirst conns f t
    match findConn conns t f with
    | none => afterForward ++ [{ from_ := t, to_ := f, bidirectional := some true }]
    | some _ => setBidirTrueFirst afterForward t f
  else
    match findConn conns f t with
    | none => conns ++ [{ from_ := f, to_ := t }]
    | some _ => conns

/-- The processed-set key of an ordered pair of node ids, exactly the
template string of the source: from, an arrow of the two characters minus
and greater-than, then to. -/
def connKey (f t : String) : String := f ++ "->" ++ t

/-- Loop body of SwarmManager.getMergedConnections (swarm.ts 347-380).
The processed set holds the string keys built by connKey. -/
def mergedLoop (all : List Connection) :
    List Connection → List String → List Connection
  | [], _ => []
  | conn :: rest, processed =>
      if processed.contains (connKey conn.from_ conn.to_) ||
         processed.contains (connKey conn.to_ conn.from_) then
        mergedLoop all rest processed
      else
        match findConn all conn.to_ conn.from_ with
        | some _ =>
            let source := if strLt conn.from_ conn.to_ then conn.from_ else conn.to_
            let target := if strLt conn.from_ conn.to_ then conn.to_ else conn.from_
            { from_ := source, to_ := target, bidirectional := some true } ::
              mergedLoop all rest
                (connKey conn.from_ conn.to_ ::
                 connKey conn.to_ conn.from_ :: processed)
        | none =>
            { from_ := conn.from_, to_ := conn.to_, bidirectional := some false } ::
              mergedLoop all rest (connKey conn.from_ conn.to_ :: processed)

/-- SwarmManager.getMergedConnections (swarm.ts 347-380). -/
def getMergedConnections (conns : List Connection) : List Connection :=
  mergedLoop conns conns []

/-- The ordered pairs of endpoints of the edges of a registry, in both
orientations: the pairs whose connKey strings the merge loop compares. -/
def edgePairs (conns : List Connection) : List (String × String) :=
  conns.flatMap (fun c => [(c.from_, c.to_), (c.to_, c.from_)])

/-- Collision freedom of the processed-set keys over the pairs the loop
can meet.  It holds whenever no node id contains the arrow separator, and
it fails on connsCX below. -/
def keysInjective (conns : List Connection) : Prop :=
  ∀ p ∈ edgePairs conns, ∀ q ∈ edgePairs conns,
    connKey p.1 p.2 = connKey q.1 q.2 → p = q

instance (conns : List Connection) : Decidable (keysInjective conns) := by
  unfold keysInjective
  infer_instance

/-- A mail carried by an effect, for stating delivery properties. -/
def mailOfEffect : Effect → Option Mail
  | .writeMailFile _ _ m => some m
  | .emit _ m => some m
  | .broadcastEv _ m => some m
  | .broadcastFailed m _ => some m
  | _ => none

/-- Whether b is a bounce for orig in the sense of the spec (§4.5): a new
mail from system with metadata.type bounce and inReplyTo the original id. -/
def isBounceFor (orig b : Mail) : Bool :=
  b.id != orig.id && b.from_ == "system" && b.metadata.type == "bounce" &&
    b.metadata.inReplyTo == some orig.id

/-- Whether the effect list delivers or announces a bounce for orig. -/
def deliversBounceFor (effs : List Effect) (orig : Mail) : Bool :=
  effs.any (fun e => (mailOfEffect e).any (isBounceFor orig))

/-- Whether the effect list writes a mail file into the inbox directory of
the given bee. -/
def writesInboxOf (effs : List Effect) (dataDir : List String)
    (beeId : String) : Bool :=
  effs.any fun e =>
    match e with
    | .writeMailFile dir _ _ => dir == dataDir ++ ["bees", beeId, "inbox"]
    | _ => false

/-- Whether the effect list contains any rename. -/
def usesRename (effs : List Effect) : Bool :=
  effs.any fun e =>
    match e with
    | .renameFile _ _ => true
    | _ => false

/-- Whether the effect list broadcasts a mail:failed event. -/
def broadcastsFailed (effs : List Effect) : Bool :=
  effs.any fun e =>
    match e with
    | .broadcastFailed _ _ => true
    | .broadcastEv ev _ => ev == "mail:failed"
    | .emit ev _ => ev == "mail:failed"
    | _ => false

/-! Concrete fixtures used by the counterexamples and witnesses. -/

/-- A two-bee swarm whose only edge is human to bee-b. -/
def cfgBC : SwarmConfig :=
  { id := "s1", name := "Swarm",
    bees := [{ id := "bee-b", name := "B" }, { id := "bee-c", name := "C" }],
    connections := [{ from_ := "human", to_ := "bee-b" }] }

def dataDir0 : List String := ["data"]

def st0 : GatewayState := { humanInbox := [], humanOutbox := [] }

/-- A mail from bee-b to bee-c, a pair with no connecting edge in cfgBC. -/
def mailBC : Mail :=
  { id := "m-1", from_ := "bee-b", to_ := "bee-c", subject := "s",
    body := "b", timestamp := "t",
    metadata := { type := "agent" }, status := "queued" }

/-- A mail from bee-b to human; cfgBC has no edge bee-b to human. -/
def mailBH : Mail :=
  { id := "m-2", from_ := "bee-b", to_ := "human", subject := "s",
    body := "b", timestamp := "t",
    metadata := { type := "agent" }, status := "queued" }

/-- A mail from human to bee-b, along the one edge of cfgBC. -/
def mailHB : Mail :=
  { id := "m-3", from_ := "human", to_ := "bee-b", subject := "s",
    body := "b", timestamp := "t",
    metadata := { type := "human" }, status := "queued" }

/-- An invalid configuration by the validation rules of the spec:
duplicate bee ids, a self-edge, and a connection from an unknown node. -/
def badCfg : SwarmConfig :=
  { id := "s2", name := "Bad",
    bees := [{ id := "dup", name := "A" }, { id := "dup", name := "A2" }],
    connections := [{ from_ := "dup", to_ := "dup" },
                    { from_ := "ghost", to_ := "dup" }] }

/-- Display predicate for the merge claims: whether a merged entry joins
the unordered pair of nodes a and b. -/
def touches (a b : String) (e : Connection) : Bool :=
  (e.from_ == a && e.to_ == b) || (e.from_ == b && e.to_ == a)

/-- The effects of the witnessed successful route of mailHB. -/
def routedEffsHB : List Effect := (routeMail cfgBC dataDir0 5 mailHB).toOption.getD []

/-- The configuration left after removing bee-c from cfgBC. -/
def cfgAfterRemove : SwarmConfig :=
  { id := "s1", name := "Swarm",
    bees := [{ id := "bee-b", name := "B" }],
    connections := [{ from_ := "human", to_ := "bee-b" }] }

/-- A registry holding a matched bidirectional pair human/bee-b and an
unmatched edge bee-b to bee-c. -/
def connsW : List Connection :=
  [{ from_ := "human", to_ := "bee-b" }, { from_ := "bee-b", to_ := "human" },
   { from_ := "bee-b", to_ := "bee-c" }]

/-- A registry whose node ids contain the arrow separator: the keys of
the first two edges collide, so the merge loop skips the second edge and
the matched pair never yields a bidirectional entry. -/
def connsCX : List Connection :=
  [{ from_ := "x->y", to_ := "z" },
   { from_ := "x", to_ := "y->z" },
   { from_ := "y->z", to_ := "x" }]

/-! Helper lemmas shared by several claims. -/

theorem routeMail_noRoute_eq (cfg : SwarmConfig) (dataDir : List String)
    (now : Nat) (m : Mail) (hc : canSendMail cfg m.from_ m.to_ = false) :
    routeMail cfg dataDir now m =
      .error ("No connection from " ++ m.from_ ++ " to " ++ m.to_) := by
  simp [routeMail, hc]

theorem routeOutboundMail_noRoute_eq (cfg : SwarmConfig) (dataDir : List String)
    (now : Nat) (st : GatewayState) (m : Mail)
    (hc : canSendMail cfg m.from_ m.to_ = false) (hh : m.to_ ≠ "human") :
    routeOutboundMail cfg dataDir now st m =
      (st, [.logError ("Mail routing failed: " ++
              ("No connection from " ++ m.from_ ++ " to " ++ m.to_)),
            .broadcastFailed { m with status := "failed" }
              ("No connection from " ++ m.from_ ++ " to " ++ m.to_)]) := by
  have hb : (m.to_ == "human") = false := beq_eq_false_iff_ne.mpr hh
  simp [routeOutboundMail, hb, routeMail_noRoute_eq cfg dataDir now m hc]

/-! findConn and setBidirTrueFirst lemmas, shared by the connection
claims. -/

theorem findConn_cons_pos (c : Connection) (rest : List Connection)
    (f t : String) (h : (c.from_ == f && c.to_ == t) = true) :
    findConn (c :: rest) f t = some c := by
  simp [findConn, List.find?_cons_of_pos, h]

theorem findConn_cons_neg (c : Connection) (rest : List Connection)
    (f t : String) (h : (c.from_ == f && c.to_ == t) = false) :
    findConn (c :: rest) f t = findConn rest f t := by
  simp only [findConn]
  rw [List.find?_cons_of_neg]
  simp [h]

theorem findConn_append (l₁ l₂ : List Connection) (f t : String) :
    findConn (l₁ ++ l₂) f t = (findConn l₁ f t).or (findConn l₂ f t) :=
  List.find?_append ..

theorem findConn_singleton_self (f t : String) (b : Option Bool) :
    findConn [{ from_ := f, to_ := t, bidirectional := b }] f t =
      some { from_ := f, to_ := t, bidirectional := b } := by
  apply findConn_cons_pos
  simp

/-- Setting the flag on the first (f, t) match rewrites exactly that match
in the result of a lookup for (f, t). -/
theorem findConn_setBidirTrueFirst_self (l : List Connection) (f t : String) :
    findConn (setBidirTrueFirst l f t) f t =
      (findConn l f t).map (fun c => { c with bidirectional := some true }) := by
  induction l with
  | nil => rfl
  | cons c rest ih =>
      by_cases h : (c.from_ == f && c.to_ == t) = true
      · have h' : (({ c with bidirectional := some true } : Connection).from_ == f &&
            ({ c with bidirectional := some true } : Connection).to_ == t) = true := h
        simp only [setBidirTrueFirst, if_pos h]
        rw [findConn_cons_pos _ _ _ _ h', findConn_cons_pos _ _ _ _ h]
        rfl
      · have hf : (c.from_ == f && c.to_ == t) = false := by
          simpa using h
        simp only [setBidirTrueFirst, if_neg h]
        rw [findConn_cons_neg _ _ _ _ hf, findConn_cons_neg _ _ _ _ hf, ih]

/-- Setting the flag on the first (f, t) match leaves lookups for any
other key untouched. -/
theorem findConn_setBidirTrueFirst_other (l : List Connection)
    (f t f' t' : String) (h : ¬(f = f' ∧ t = t')) :
    findConn (setBidirTrueFirst l f t) f' t' = findConn l f' t' := by
  induction l with
  | nil => rfl
  | cons c rest ih =>
      by_cases hp : (c.from_ == f && c.to_ == t) = true
      · have hcf : c.from_ = f ∧ c.to_ = t := by
          simpa [Bool.and_eq_true, beq_iff_eq] using hp
        have hnot : (c.from_ == f' && c.to_ == t') = false := by
          by_cases hq : (c.from_ == f' && c.to_ == t') = true
          · exfalso
            have hcq : c.from_ = f' ∧ c.to_ = t' := by
              simpa [Bool.and_eq_true, beq_iff_eq] using hq
            exact h ⟨hcf.1.symm.trans hcq.1, hcf.2.symm.trans hcq.2⟩
          · simpa using hq
        have hnot' : (({ c with bidirectional := some true } : Connection).from_ == f' &&
            ({ c with bidirectional := some true } : Connection).to_ == t') = false := hnot
        simp only [setBidirTrueFirst, if_pos hp]
        rw [findConn_cons_neg _ _ _ _ hnot', findConn_cons_neg _ _ _ _ hnot]
      · simp only [setBidirTrueFirst, if_neg hp]
        by_cases hq : (c.from_ == f' && c.to_ == t') = true
        · rw [findConn_cons_pos _ _ _ _ hq, findConn_cons_pos _ _ _ _ hq]
        · have hq' : (c.from_ == f' && c.to_ == t') = false := by simpa using hq
          rw [findConn_cons_neg _ _ _ _ hq', findConn_cons_neg _ _ _ _ hq', ih]

/-- When the first (f, t) match already carries the flag, setting it is
the identity. -/
theorem setBidirTrueFirst_eq_self (l : List Connection) (f t : String)
    (h : ∀ c, findConn l f t = some c → c.bidirectional = some true) :
    setBidirTrueFirst l f t = l := by
  induction l with
  | nil => rfl
  | cons c rest ih =>
      by_cases hp : (c.from_ == f && c.to_ == t) = true
      · have hc := h c (findConn_cons_pos _ _ _ _ hp)
        simp only [setBidirTrueFirst, if_pos hp]
        cases c
        simp_all
      · have hp' : (c.from_ == f && c.to_ == t) = false := by simpa using hp
        simp only [setBidirTrueFirst, if_neg hp]
        rw [ih]
        intro c' hc'
        exact h c' (by rw [findConn_cons_neg _ _ _ _ hp']; exact hc')

/-- After a bidirectional addConnection, the first matches of both
directed keys exist and carry the flag. -/
theorem addConnection_bidir_matches (conns : List Connection) (f t : String) :
    ∃ c₁ c₂,
      findConn (addConnection conns f t true) f t = some c₁ ∧
      c₁.bidirectional = some true ∧
      findConn (addConnection conns f t true) t f = some c₂ ∧
      c₂.bidirectional = some true := by
  cases hF : findConn conns f t with
  | none =>
      cases hR : findConn conns t f with
      | none =>
          simp only [addConnection, if_pos, hF, hR]
          by_cases hft : f = t
          · subst hft
            refine ⟨{ from_ := f, to_ := f, bidirectional := some true },
                    { from_ := f, to_ := f, bidirectional := some true },
                    ?_, rfl, ?_, rfl⟩ <;>
              · rw [findConn_append, findConn_append, hF, findConn_singleton_self]
                rfl
          · refine ⟨{ from_ := f, to_ := t, bidirectional := some true },
                    { from_ := t, to_ := f, bidirectional := some true },
                    ?_, rfl, ?_, rfl⟩
            · rw [findConn_append, findConn_append, hF, findConn_singleton_self]
              rfl
            · have hfeq : (f == t) = false := beq_eq_false_iff_ne.mpr hft
              have hx : findConn
                  [{ from_ := f, to_ := t, bidirectional := some true }] t f
                  = none := by
                apply findConn_cons_neg
                simp [hfeq]
              rw [findConn_append, findConn_append, hR, hx, findConn_singleton_self]
              rfl
      | some c0 =>
          have hft : f ≠ t := by
            intro hft
            subst hft
            rw [hF] at hR
            cases hR
          simp only [addConnection, if_pos, hF, hR]
          refine ⟨{ from_ := f, to_ := t, bidirectional := some true },
                  { c0 with bidirectional := some true }, ?_, rfl, ?_, rfl⟩
          · rw [findConn_setBidirTrueFirst_other _ _ _ _ _
                (fun hx => hft hx.2),
              findConn_append, hF, findConn_singleton_self]
            rfl
          · rw [findConn_setBidirTrueFirst_self, findConn_append, hR]
            rfl
  | some c1 =>
      cases hR : findConn conns t f with
      | none =>
          have hft : f ≠ t := by
            intro hft
            subst hft
            rw [hF] at hR
            cases hR
          simp only [addConnection, if_pos, hF, hR]
          refine ⟨{ c1 with bidirectional := some true },
                  { from_ := t, to_ := f, bidirectional := some true },
                  ?_, rfl, ?_, rfl⟩
          · rw [findConn_append, findConn_setBidirTrueFirst_self, hF]
            rfl
          · rw [findConn_append, findConn_setBidirTrueFirst_other _ _ _ _ _
                (fun hx => hft hx.1), hR, findConn_singleton_self]
            rfl
      | some c2 =>
          by_cases hft : f = t
          · subst hft
            rw [hF] at hR
            cases hR
            simp only [addConnection, if_pos, hF]
            refine ⟨{ c1 with bidirectional := some true },
                    { c1 with bidirectional := some true }, ?_, rfl, ?_, rfl⟩ <;>
              · rw [findConn_setBidirTrueFirst_self,
                  findConn_setBidirTrueFirst_self, hF]
                rfl
          · simp only [addConnection, if_pos, hF, hR]
            refine ⟨{ c1 with bidirectional := some true },
                    { c2 with bidirectional := some true }, ?_, rfl, ?_, rfl⟩
            · rw [findConn_setBidirTrueFirst_other _ _ _ _ _
                  (fun hx => hft hx.2),
                findConn_setBidirTrueFirst_self, hF]
              rfl
            · rw [findConn_setBidirTrueFirst_self,
                findConn_setBidirTrueFirst_other _ _ _ _ _
                  (fun hx => hft hx.1), hR]
              rfl

/-! Order and lookup lemmas for the merge claim. -/

theorem ltUnitList_asymm (as : List Nat) :
    ∀ bs, ltUnitList as bs = true → ltUnitList bs as = false := by
  induction as with
  | nil =>
      intro bs h
      cases bs with
      | nil => cases h
      | cons b bs' => rfl
  | cons a as' ih =>
      intro bs h
      cases bs with
      | nil => cases h
      | cons b bs' =>
          simp only [ltUnitList] at h ⊢
          by_cases hab : a < b
          · rw [if_pos hab] at h
            have hba : ¬ b < a := lt_asymm hab
            rw [if_neg hba, if_pos hab]
          · rw [if_neg hab] at h
            by_cases hba : b < a
            · rw [if_pos hba] at h
              cases h
            · rw [if_neg hba] at h
              rw [if_neg hba, if_neg hab]
              exact ih bs' h

theorem ltUnitList_conn (as : List Nat) :
    ∀ bs, ltUnitList as bs = false → ltUnitList bs as = false → as = bs := by
  induction as with
  | nil =>
      intro bs h1 h2
      cases bs with
      | nil => rfl
      | cons b bs' => cases h1
  | cons a as' ih =>
      intro bs h1 h2
      cases bs with
      | nil => cases h2
      | cons b bs' =>
          simp only [ltUnitList] at h1 h2
          by_cases hab : a < b
          · rw [if_pos hab] at h1
            cases h1
          · rw [if_neg hab] at h1
            by_cases hba : b < a
            · rw [if_pos hba] at h2
              cases h2
            · rw [if_neg hba] at h1
              rw [if_neg hba, if_neg hab] at h2
              have hab' : a = b := le_antisymm (not_lt.mp hba) (not_lt.mp hab)
              rw [hab', ih bs' h1 h2]

theorem strLt_asymm (a b : String) (h : strLt a b = true) : strLt b a = false :=
  ltUnitList_asymm (utf16OfChars a.data) (utf16OfChars b.data) h

theorem char_eq_of_toNat_eq (c d : Char) (h : c.toNat = d.toNat) : c = d :=
  Char.eq_of_val_eq (UInt32.ext h)

theorem utf16Units_ne_nil (c : Char) : utf16Units c ≠ [] := by
  unfold utf16Units
  split_ifs <;> simp

/-- Utf-16 encoding of character lists is injective: surrogate halves and
single units live in disjoint ranges, so the encoding is a prefix code. -/
theorem utf16OfChars_inj (cs : List Char) :
    ∀ ds, utf16OfChars cs = utf16OfChars ds → cs = ds := by
  induction cs with
  | nil =>
      intro ds h
      cases ds with
      | nil => rfl
      | cons d ds' =>
          exfalso
          simp only [utf16OfChars] at h
          exact utf16Units_ne_nil d (List.append_eq_nil.mp h.symm).1
  | cons c cs' ih =>
      intro ds h
      cases ds with
      | nil =>
          exfalso
          simp only [utf16OfChars] at h
          exact utf16Units_ne_nil c (List.append_eq_nil.mp h).1
      | cons d ds' =>
          simp only [utf16OfChars] at h
          have hcv : c.toNat < 55296 ∨ (57343 < c.toNat ∧ c.toNat < 1114112) :=
            c.valid
          have hdv : d.toNat < 55296 ∨ (57343 < d.toNat ∧ d.toNat < 1114112) :=
            d.valid
          by_cases hc : c.toNat < 65536 <;> by_cases hd : d.toNat < 65536
          · rw [utf16Units, if_pos hc, utf16Units, if_pos hd] at h
            simp only [List.cons_append, List.nil_append] at h
            injection h with h1 h2
            rw [char_eq_of_toNat_eq c d h1, ih ds' h2]
          · exfalso
            rw [utf16Units, if_pos hc, utf16Units, if_neg hd] at h
            simp only [List.cons_append, List.nil_append] at h
            injection h with h1 _
            omega
          · exfalso
            rw [utf16Units, if_neg hc, utf16Units, if_pos hd] at h
            simp only [List.cons_append, List.nil_append] at h
            injection h with h1 _
            omega
          · rw [utf16Units, if_neg hc, utf16Units, if_neg hd] at h
            simp only [List.cons_append, List.nil_append,
              List.cons.injEq] at h
            obtain ⟨h1, h2, h3⟩ := h
            have htn : c.toNat = d.toNat := by omega
            rw [char_eq_of_toNat_eq c d htn, ih ds' h3]

theorem strLt_conn (a b : String) (h1 : strLt a b = false)
    (h2 : strLt b a = false) : a = b := by
  have hu := ltUnitList_conn (utf16OfChars a.data) (utf16OfChars b.data) h1 h2
  have hd := utf16OfChars_inj a.data b.data hu
  cases a
  cases b
  exact congrArg String.mk hd

/-- The displayed source and target of a merged pair do not depend on
which direction of the pair the loop encounters first. -/
theorem mergedEntry_comm (a b : String) :
    ((if strLt b a then b else a) = if strLt a b then a else b) ∧
    ((if strLt b a then a else b) = if strLt a b then b else a) := by
  by_cases h : strLt a b = true
  · rw [strLt_asymm a b h]
    simp [h]
  · have h' : strLt a b = false := by simpa using h
    by_cases h2 : strLt b a = true
    · simp [h2, h']
    · have h2' : strLt b a = false := by simpa using h2
      have hab := strLt_conn a b h' h2'
      subst hab
      simp

theorem contains_key_iff (l : List String) (x : String) :
    l.contains x = true ↔ x ∈ l := by
  constructor
  · intro h
    exact List.elem_iff.mp (by simpa [List.contains] using h)
  · intro h
    simpa [List.contains] using List.elem_iff.mpr h

theorem contains_key_false_iff (l : List String) (x : String) :
    l.contains x = false ↔ x ∉ l := by
  constructor
  · intro h hx
    rw [(contains_key_iff l x).mpr hx] at h
    cases h
  · intro h
    cases hc : l.contains x with
    | false => rfl
    | true => exact absurd ((contains_key_iff l x).mp hc) h

theorem touches_true_iff (a b : String) (e : Connection) :
    touches a b e = true ↔
      (e.from_ = a ∧ e.to_ = b) ∨ (e.from_ = b ∧ e.to_ = a) := by
  simp [touches, Bool.or_eq_true, Bool.and_eq_true, beq_iff_eq]

/-- A merged bidirectional entry touching the pair forces the underlying
connection to join the same pair. -/
theorem touches_merged_entry (a b cf ct : String) (x : Option Bool)
    (h : touches a b
        { from_ := if strLt cf ct then cf else ct,
          to_ := if strLt cf ct then ct else cf,
          bidirectional := x } = true) :
    (cf = a ∧ ct = b) ∨ (cf = b ∧ ct = a) := by
  split_ifs at h with hlt
  · exact (touches_true_iff a b _).mp h
  · rcases (touches_true_iff a b _).mp h with ⟨h1, h2⟩ | ⟨h1, h2⟩
    · exact Or.inr ⟨h2, h1⟩
    · exact Or.inl ⟨h2, h1⟩

theorem findConn_mem_and_match (conns : List Connection) (f t : String)
    (c : Connection) (h : findConn conns f t = some c) :
    c ∈ conns ∧ c.from_ = f ∧ c.to_ = t := by
  have h' : conns.find? (fun c => c.from_ == f && c.to_ == t) = some c := h
  have hm := List.mem_of_find?_eq_some h'
  have hp := List.find?_some h'
  simp only [Bool.and_eq_true, beq_iff_eq] at hp
  exact ⟨hm, hp⟩

theorem findConn_none_iff (conns : List Connection) (f t : String) :
    findConn conns f t = none ↔
      ∀ c ∈ conns, ¬(c.from_ = f ∧ c.to_ = t) := by
  have he : findConn conns f t =
      conns.find? (fun c => c.from_ == f && c.to_ == t) := rfl
  rw [he, List.find?_eq_none]
  constructor
  · intro h c hc hx
    exact h c hc (by simp [hx.1, hx.2])
  · intro h c hc hp
    have hx : c.from_ = f ∧ c.to_ = t := by
      simpa [Bool.and_eq_true, beq_iff_eq] using hp
    exact h c hc hx

theorem mem_edgePairs_of_mem (c : Connection) (conns : List Connection)
    (h : c ∈ conns) :
    (c.from_, c.to_) ∈ edgePairs conns ∧
    (c.to_, c.from_) ∈ edgePairs conns := by
  constructor <;>
  · unfold edgePairs
    rw [List.mem_flatMap]
    exact ⟨c, h, by simp⟩

theorem edgePairs_swap (conns : List Connection) (x y : String)
    (h : (x, y) ∈ edgePairs conns) : (y, x) ∈ edgePairs conns := by
  unfold edgePairs at h ⊢
  rw [List.mem_flatMap] at h ⊢
  rcases h with ⟨c, hc, hm⟩
  refine ⟨c, hc, ?_⟩
  simp only [List.mem_cons, List.not_mem_nil, or_false] at hm ⊢
  rcases hm with hm | hm
  · injection hm with e1 e2
    subst e1
    subst e2
    right
    rfl
  · injection hm with e1 e2
    subst e1
    subst e2
    left
    rfl

/-- Once one key of a pair is in the processed set, the loop emits no
further entry touching that pair. -/
theorem mergedLoop_countP_zero (all : List Connection) (a b : String)
    (pending : List Connection) :
    ∀ processed : List String,
      (connKey a b ∈ processed ∨ connKey b a ∈ processed) →
      (mergedLoop all pending processed).countP (touches a b) = 0 := by
  induction pending with
  | nil =>
      intro processed _
      simp [mergedLoop]
  | cons conn rest ih =>
      intro processed hmem
      by_cases hskip :
          (processed.contains (connKey conn.from_ conn.to_) ||
           processed.contains (connKey conn.to_ conn.from_)) = true
      · simp only [mergedLoop, if_pos hskip]
        exact ih processed hmem
      · have hskip' : (processed.contains (connKey conn.from_ conn.to_) ||
            processed.contains (connKey conn.to_ conn.from_)) = false := by
          simpa using hskip
        have hk1 : connKey conn.from_ conn.to_ ∉ processed :=
          (contains_key_false_iff processed _).mp
            (Bool.or_eq_false_iff.mp hskip').1
        have hk2 : connKey conn.to_ conn.from_ ∉ processed :=
          (contains_key_false_iff processed _).mp
            (Bool.or_eq_false_iff.mp hskip').2
        have hpair : ¬((conn.from_ = a ∧ conn.to_ = b) ∨
            (conn.from_ = b ∧ conn.to_ = a)) := by
          rintro (⟨h1, h2⟩ | ⟨h1, h2⟩)
          · rcases hmem with hm | hm
            · exact hk1 (by rw [h1, h2]; exact hm)
            · exact hk2 (by rw [h1, h2]; exact hm)
          · rcases hmem with hm | hm
            · exact hk2 (by rw [h1, h2]; exact hm)
            · exact hk1 (by rw [h1, h2]; exact hm)
        have hcond : ¬((processed.contains (connKey conn.from_ conn.to_) ||
            processed.contains (connKey conn.to_ conn.from_)) = true) := by
          simp only [hskip']
          exact Bool.false_ne_true
        cases hfr : findConn all conn.to_ conn.from_ with
        | some c =>
            simp only [mergedLoop, hfr]
            rw [if_neg hcond, List.countP_cons]
            have hent : touches a b
                { from_ := if strLt conn.from_ conn.to_ then conn.from_
                    else conn.to_,
                  to_ := if strLt conn.from_ conn.to_ then conn.to_
                    else conn.from_,
                  bidirectional := some true } = false := by
              by_cases hq : touches a b
                  { from_ := if strLt conn.from_ conn.to_ then conn.from_
                      else conn.to_,
                    to_ := if strLt conn.from_ conn.to_ then conn.to_
                      else conn.from_,
                    bidirectional := some true } = true
              · exact absurd (touches_merged_entry a b _ _ _ hq) hpair
              · simpa using hq
            have hz := ih (connKey conn.from_ conn.to_ ::
                connKey conn.to_ conn.from_ :: processed)
              (hmem.imp
                (fun hm => List.mem_cons_of_mem _ (List.mem_cons_of_mem _ hm))
                (fun hm => List.mem_cons_of_mem _ (List.mem_cons_of_mem _ hm)))
            simp [hent, hz]
        | none =>
            simp only [mergedLoop, hfr]
            rw [if_neg hcond, List.countP_cons]
            have hent : touches a b
                { from_ := conn.from_, to_ := conn.to_,
                  bidirectional := some false } = false := by
              by_cases hq : touches a b
                  { from_ := conn.from_, to_ := conn.to_,
                    bidirectional := some false } = true
              · exact absurd ((touches_true_iff a b _).mp hq) hpair
              · simpa using hq
            have hz := ih (connKey conn.from_ conn.to_ :: processed)
              (hmem.imp (fun hm => List.mem_cons_of_mem _ hm)
                (fun hm => List.mem_cons_of_mem _ hm))
            simp [hent, hz]

/-- While both directions of a live pair are in the registry, the keys do
not collide, and neither key of the pair is processed yet, the loop emits
exactly one merged entry for the pair: the bidirectional one keyed on the
lexicographic minimum. -/
theorem mergedLoop_pair_bidir (all : List Connection) (a b : String)
    (hA : findConn all a b ≠ none) (hB : findConn all b a ≠ none)
    (hinj : keysInjective all) (hab : (a, b) ∈ edgePairs all)
    (pending : List Connection) :
    ∀ processed : List String,
      (∀ c ∈ pending, c ∈ all) →
      connKey a b ∉ processed → connKey b a ∉ processed →
      (∃ conn ∈ pending, touches a b conn = true) →
      (mergedLoop all pending processed).countP (touches a b) = 1 ∧
      ({ from_ := if strLt a b then a else b,
         to_ := if strLt a b then b else a,
         bidirectional := some true } : Connection) ∈
        mergedLoop all pending processed := by
  induction pending with
  | nil =>
      intro processed _ _ _ hex
      rcases hex with ⟨c, hc, _⟩
      cases hc
  | cons conn rest ih =>
      intro processed hsub hk1 hk2 hex
      have hsub' : ∀ c ∈ rest, c ∈ all :=
        fun c hc => hsub c (List.mem_cons_of_mem _ hc)
      by_cases htc : touches a b conn = true
      · rcases (touches_true_iff a b conn).mp htc with ⟨h1, h2⟩ | ⟨h1, h2⟩
        · subst h1
          subst h2
          have hg : (processed.contains (connKey conn.from_ conn.to_) ||
              processed.contains (connKey conn.to_ conn.from_)) = false :=
            Bool.or_eq_false_iff.mpr
              ⟨(contains_key_false_iff _ _).mpr hk1,
               (contains_key_false_iff _ _).mpr hk2⟩
          have hcond : ¬((processed.contains (connKey conn.from_ conn.to_) ||
              processed.contains (connKey conn.to_ conn.from_)) = true) := by
            simp only [hg]
            exact Bool.false_ne_true
          cases hfr : findConn all conn.to_ conn.from_ with
          | none => exact absurd hfr hB
          | some c =>
              simp only [mergedLoop, hfr]
              rw [if_neg hcond]
              have hent : touches conn.from_ conn.to_
                  ({ from_ := if strLt conn.from_ conn.to_ then conn.from_
                       else conn.to_,
                     to_ := if strLt conn.from_ conn.to_ then conn.to_
                       else conn.from_,
                     bidirectional := some true } : Connection) = true := by
                apply (touches_true_iff _ _ _).mpr
                split_ifs
                · exact Or.inl ⟨rfl, rfl⟩
                · exact Or.inr ⟨rfl, rfl⟩
              have hz := mergedLoop_countP_zero all conn.from_ conn.to_ rest
                (connKey conn.from_ conn.to_ ::
                 connKey conn.to_ conn.from_ :: processed)
                (Or.inl (List.mem_cons_self _ _))
              constructor
              · rw [List.countP_cons]
                simp [hent, hz]
              · exact List.mem_cons_self _ _
        · subst h1
          subst h2
          have hg : (processed.contains (connKey conn.from_ conn.to_) ||
              processed.contains (connKey conn.to_ conn.from_)) = false :=
            Bool.or_eq_false_iff.mpr
              ⟨(contains_key_false_iff _ _).mpr hk2,
               (contains_key_false_iff _ _).mpr hk1⟩
          have hcond : ¬((processed.contains (connKey conn.from_ conn.to_) ||
              processed.contains (connKey conn.to_ conn.from_)) = true) := by
            simp only [hg]
            exact Bool.false_ne_true
          cases hfr : findConn all conn.to_ conn.from_ with
          | none => exact absurd hfr hA
          | some c =>
              simp only [mergedLoop, hfr]
              rw [if_neg hcond]
              have hsrc := (mergedEntry_comm conn.to_ conn.from_).1
              have htgt := (mergedEntry_comm conn.to_ conn.from_).2
              have hent : touches conn.to_ conn.from_
                  ({ from_ := if strLt conn.from_ conn.to_ then conn.from_
                       else conn.to_,
                     to_ := if strLt conn.from_ conn.to_ then conn.to_
                       else conn.from_,
                     bidirectional := some true } : Connection) = true := by
                apply (touches_true_iff _ _ _).mpr
                split_ifs
                · exact Or.inr ⟨rfl, rfl⟩
                · exact Or.inl ⟨rfl, rfl⟩
              have hz := mergedLoop_countP_zero all conn.to_ conn.from_ rest
                (connKey conn.from_ conn.to_ ::
                 connKey conn.to_ conn.from_ :: processed)
                (Or.inr (List.mem_cons_self _ _))
              constructor
              · rw [List.countP_cons]
                simp [hent, hz]
              · rw [hsrc, htgt]
                exact List.mem_cons_self _ _
      · have hnp : ¬((conn.from_ = a ∧ conn.to_ = b) ∨
            (conn.from_ = b ∧ conn.to_ = a)) := by
          intro hx
          exact htc ((touches_true_iff a b conn).mpr hx)
        have hex' : ∃ c ∈ rest, touches a b c = true := by
          rcases hex with ⟨c, hc, hct⟩
          rcases List.mem_cons.mp hc with rfl | hc'
          · exact absurd hct htc
          · exact ⟨c, hc', hct⟩
        by_cases hskip : (processed.contains (connKey conn.from_ conn.to_) ||
            processed.contains (connKey conn.to_ conn.from_)) = true
        · simp only [mergedLoop, if_pos hskip]
          exact ih processed hsub' hk1 hk2 hex'
        · have hskip' : (processed.contains (connKey conn.from_ conn.to_) ||
              processed.contains (connKey conn.to_ conn.from_)) = false := by
            simpa using hskip
          have hcond : ¬((processed.contains (connKey conn.from_ conn.to_) ||
              processed.contains (connKey conn.to_ conn.from_)) = true) := by
            simp only [hskip']
            exact Bool.false_ne_true
          have hpairs := mem_edgePairs_of_mem conn all
            (hsub conn (List.mem_cons_self _ _))
          have hba : (b, a) ∈ edgePairs all := edgePairs_swap all a b hab
          have hkne1 : connKey a b ≠ connKey conn.from_ conn.to_ := by
            intro he
            have hp := hinj (a, b) hab (conn.from_, conn.to_) hpairs.1 he
            injection hp with e1 e2
            exact hnp (Or.inl ⟨e1.symm, e2.symm⟩)
          have hkne2 : connKey a b ≠ connKey conn.to_ conn.from_ := by
            intro he
            have hp := hinj (a, b) hab (conn.to_, conn.from_) hpairs.2 he
            injection hp with e1 e2
            exact hnp (Or.inr ⟨e2.symm, e1.symm⟩)
          have hkne3 : connKey b a ≠ connKey conn.from_ conn.to_ := by
            intro he
            have hp := hinj (b, a) hba (conn.from_, conn.to_) hpairs.1 he
            injection hp with e1 e2
            exact hnp (Or.inr ⟨e1.symm, e2.symm⟩)
          have hkne4 : connKey b a ≠ connKey conn.to_ conn.from_ := by
            intro he
            have hp := hinj (b, a) hba (conn.to_, conn.from_) hpairs.2 he
            injection hp with e1 e2
            exact hnp (Or.inl ⟨e2.symm, e1.symm⟩)
          cases hfr : findConn all conn.to_ conn.from_ with
          | some c =>
              simp only [mergedLoop, hfr]
              rw [if_neg hcond]
              have hnk1 : connKey a b ∉ (connKey conn.from_ conn.to_ ::
                  connKey conn.to_ conn.from_ :: processed) := by
                simp only [List.mem_cons]
                rintro (h | h | h)
                exacts [hkne1 h, hkne2 h, hk1 h]
              have hnk2 : connKey b a ∉ (connKey conn.from_ conn.to_ ::
                  connKey conn.to_ conn.from_ :: processed) := by
                simp only [List.mem_cons]
                rintro (h | h | h)
                exacts [hkne3 h, hkne4 h, hk2 h]
              obtain ⟨ihc, ihm⟩ := ih _ hsub' hnk1 hnk2 hex'
              have hent : touches a b
                  ({ from_ := if strLt conn.from_ conn.to_ then conn.from_
                       else conn.to_,
                     to_ := if strLt conn.from_ conn.to_ then conn.to_
                       else conn.from_,
                     bidirectional := some true } : Connection) = false := by
                by_cases hq : touches a b
                    ({ from_ := if strLt conn.from_ conn.to_ then conn.from_
                         else conn.to_,
                       to_ := if strLt conn.from_ conn.to_ then conn.to_
                         else conn.from_,
                       bidirectional := some true } : Connection) = true
                · exact absurd (touches_merged_entry a b _ _ _ hq) hnp
                · simpa using hq
              constructor
              · rw [List.countP_cons]
                simp [hent, ihc]
              · exact List.mem_cons_of_mem _ ihm
          | none =>
              simp only [mergedLoop, hfr]
              rw [if_neg hcond]
              have hnk1 : connKey a b ∉
                  (connKey conn.from_ conn.to_ :: processed) := by
                simp only [List.mem_cons]
                rintro (h | h)
                exacts [hkne1 h, hk1 h]
              have hnk2 : connKey b a ∉
                  (connKey conn.from_ conn.to_ :: processed) := by
                simp only [List.mem_cons]
                rintro (h | h)
                exacts [hkne3 h, hk2 h]
              obtain ⟨ihc, ihm⟩ := ih _ hsub' hnk1 hnk2 hex'
              have hent : touches a b
                  ({ from_ := conn.from_, to_ := conn.to_,
                     bidirectional := some false } : Connection) = false := by
                by_cases hq : touches a b
                    ({ from_ := conn.from_, to_ := conn.to_,
                       bidirectional := some false } : Connection) = true
                · exact absurd ((touches_true_iff a b _).mp hq) hnp
                · simpa using hq
              constructor
              · rw [List.countP_cons]
                simp [hent, ihc]
              · exact List.mem_cons_of_mem _ ihm

/-- An edge whose reverse is absent from the registry is emitted as a
unidirectional display entry, provided the keys do not collide. -/
theorem mergedLoop_uni (all : List Connection) (a b : String)
    (hBA : findConn all b a = none)
    (hinj : keysInjective all) (hab : (a, b) ∈ edgePairs all)
    (pending : List Connection) :
    ∀ processed : List String,
      (∀ c ∈ pending, c ∈ all) →
      connKey a b ∉ processed → connKey b a ∉ processed →
      (∀ c ∈ pending, ¬(c.from_ = b ∧ c.to_ = a)) →
      (∃ conn ∈ pending, conn.from_ = a ∧ conn.to_ = b) →
      ({ from_ := a, to_ := b, bidirectional := some false } : Connection) ∈
        mergedLoop all pending processed := by
  induction pending with
  | nil =>
      intro _ _ _ _ _ hex
      rcases hex with ⟨c, hc, _⟩
      cases hc
  | cons conn rest ih =>
      intro processed hsub hk1 hk2 hno hex
      have hsub' : ∀ c ∈ rest, c ∈ all :=
        fun c hc => hsub c (List.mem_cons_of_mem _ hc)
      by_cases hconn : conn.from_ = a ∧ conn.to_ = b
      · obtain ⟨h1, h2⟩ := hconn
        subst h1
        subst h2
        have hg : (processed.contains (connKey conn.from_ conn.to_) ||
            processed.contains (connKey conn.to_ conn.from_)) = false :=
          Bool.or_eq_false_iff.mpr
            ⟨(contains_key_false_iff _ _).mpr hk1,
             (contains_key_false_iff _ _).mpr hk2⟩
        have hcond : ¬((processed.contains (connKey conn.from_ conn.to_) ||
            processed.contains (connKey conn.to_ conn.from_)) = true) := by
          simp only [hg]
          exact Bool.false_ne_true
        simp only [mergedLoop, hBA]
        rw [if_neg hcond]
        exact List.mem_cons_self _ _
      · have hnoc : ¬(conn.from_ = b ∧ conn.to_ = a) :=
          hno conn (List.mem_cons_self _ _)
        have hno' : ∀ c ∈ rest, ¬(c.from_ = b ∧ c.to_ = a) :=
          fun c hc => hno c (List.mem_cons_of_mem _ hc)
        have hex' : ∃ c ∈ rest, c.from_ = a ∧ c.to_ = b := by
          rcases hex with ⟨c, hc, hcc⟩
          rcases List.mem_cons.mp hc with rfl | hc'
          · exact absurd hcc hconn
          · exact ⟨c, hc', hcc⟩
        by_cases hskip : (processed.contains (connKey conn.from_ conn.to_) ||
            processed.contains (connKey conn.to_ conn.from_)) = true
        · simp only [mergedLoop, if_pos hskip]
          exact ih processed hsub' hk1 hk2 hno' hex'
        · have hskip' : (processed.contains (connKey conn.from_ conn.to_) ||
              processed.contains (connKey conn.to_ conn.from_)) = false := by
            simpa using hskip
          have hcond : ¬((processed.contains (connKey conn.from_ conn.to_) ||
              processed.contains (connKey conn.to_ conn.from_)) = true) := by
            simp only [hskip']
            exact Bool.false_ne_true
          have hpairs := mem_edgePairs_of_mem conn all
            (hsub conn (List.mem_cons_self _ _))
          have hba : (b, a) ∈ edgePairs all := edgePairs_swap all a b hab
          have hkne1 : connKey a b ≠ connKey conn.from_ conn.to_ := by
            intro he
            have hp := hinj (a, b) hab (conn.from_, conn.to_) hpairs.1 he
            injection hp with e1 e2
            exact hconn ⟨e1.symm, e2.symm⟩
          have hkne2 : connKey a b ≠ connKey conn.to_ conn.from_ := by
            intro he
            have hp := hinj (a, b) hab (conn.to_, conn.from_) hpairs.2 he
            injection hp with e1 e2
            exact hnoc ⟨e2.symm, e1.symm⟩
          have hkne3 : connKey b a ≠ connKey conn.from_ conn.to_ := by
            intro he
            have hp := hinj (b, a) hba (conn.from_, conn.to_) hpairs.1 he
            injection hp with e1 e2
            exact hnoc ⟨e1.symm, e2.symm⟩
          have hkne4 : connKey b a ≠ connKey conn.to_ conn.from_ := by
            intro he
            have hp := hinj (b, a) hba (conn.to_, conn.from_) hpairs.2 he
            injection hp with e1 e2
            exact hconn ⟨e2.symm, e1.symm⟩
          cases hfr : findConn all conn.to_ conn.from_ with
          | some c =>
              simp only [mergedLoop, hfr]
              rw [if_neg hcond]
              apply List.mem_cons_of_mem
              apply ih _ hsub' ?k1 ?k2 hno' hex'
              case k1 =>
                simp only [List.mem_cons]
                rintro (h | h | h)
                exacts [hkne1 h, hkne2 h, hk1 h]
              case k2 =>
                simp only [List.mem_cons]
                rintro (h | h | h)
                exacts [hkne3 h, hkne4 h, hk2 h]
          | none =>
              simp only [mergedLoop, hfr]
              rw [if_neg hcond]
              apply List.mem_cons_of_mem
              apply ih _ hsub' ?k1 ?k2 hno' hex'
              case k1 =>
                simp only [List.mem_cons]
                rintro (h | h)
                exacts [hkne1 h, hk1 h]
              case k2 =>
                simp only [List.mem_cons]
                rintro (h | h)
                exacts [hkne3 h, hk2 h]

/-! Claim theorems. -/

/-- Claim C1, counterexample: at the concrete no-route input mailBC the
full outbound routing path produces no bounce mail at all. -/
theorem routeNoRoute_noBounce_cex :
    canSendMail cfgBC mailBC.from_ mailBC.to_ = false ∧
    deliversBounceFor (routeOutboundMail cfgBC dataDir0 0 st0 mailBC).2 mailBC
      = false := by decide

/-- Claim C1 (amended): when canSend(m.from, m.to) is false the inbox of
the recipient gains no file, but no bounce mail is produced either:
routeMail throws and the outbound path reports the failure only through a
mail:failed broadcast, leaving the gateway state unchanged. -/
theorem routeNoRoute_noBounce (cfg : SwarmConfig) (dataDir : List String)
    (now : Nat) (st : GatewayState) (m : Mail)
    (hc : canSendMail cfg m.from_ m.to_ = false) (hh : m.to_ ≠ "human") :
    routeMail cfg dataDir now m =
      .error ("No connection from " ++ m.from_ ++ " to " ++ m.to_) ∧
    (routeOutboundMail cfg dataDir now st m).1 = st ∧
    writesInboxOf (routeOutboundMail cfg dataDir now st m).2 dataDir m.to_
      = false ∧
    deliversBounceFor (routeOutboundMail cfg dataDir now st m).2 m = false := by
  rw [routeOutboundMail_noRoute_eq cfg dataDir now st m hc hh]
  refine ⟨routeMail_noRoute_eq cfg dataDir now m hc, rfl, ?_, ?_⟩
  · simp [writesInboxOf]
  · simp [deliversBounceFor, mailOfEffect, isBounceFor]

/-- Claim C1 witness. -/
theorem routeNoRoute_noBounce_witness :
    routeMail cfgBC dataDir0 0 mailBC =
      .error ("No connection from " ++ mailBC.from_ ++ " to " ++ mailBC.to_) ∧
    (routeOutboundMail cfgBC dataDir0 0 st0 mailBC).1 = st0 ∧
    writesInboxOf (routeOutboundMail cfgBC dataDir0 0 st0 mailBC).2 dataDir0
      mailBC.to_ = false ∧
    deliversBounceFor (routeOutboundMail cfgBC dataDir0 0 st0 mailBC).2 mailBC
      = false :=
  routeNoRoute_noBounce cfgBC dataDir0 0 st0 mailBC (by decide) (by decide)

/-- Claim C2, counterexample: cfgBC has no edge bee-b to human, yet the
watcher path appends mailBH to the human inbox. -/
theorem humanDelivery_unchecked_cex :
    canSendMail cfgBC "bee-b" "human" = false ∧
    (routeOutboundMail cfgBC dataDir0 0 st0 mailBH).1.humanInbox =
      [{ mailBH with status := "delivered" }] := by decide

/-- Claim C2 (amended): canSend(x, human) holds exactly when the directed
edge is present, with no special case for the human node; but a mail taken
from a bee outbox whose recipient is human is appended to the human inbox
unconditionally, without consulting canSend. -/
theorem canSendHuman_iff_edge_watcher_unchecked (cfg : SwarmConfig)
    (dataDir : List String) (now : Nat) (st : GatewayState) (x : String)
    (m : Mail) (hm : m.to_ = "human") :
    (canSendMail cfg x "human" = true ↔
      ∃ c ∈ cfg.connections, c.from_ = x ∧ c.to_ = "human") ∧
    (routeOutboundMail cfg dataDir now st m).1.humanInbox =
      st.humanInbox ++ [{ m with status := "delivered" }] := by
  constructor
  · simp [canSendMail, List.any_eq_true]
  · have hb : (m.to_ == "human") = true := beq_iff_eq.mpr hm
    simp [routeOutboundMail, hb]

/-- Claim C2 witness. -/
theorem canSendHuman_iff_edge_watcher_unchecked_witness :
    (canSendMail cfgBC "bee-b" "human" = true ↔
      ∃ c ∈ cfgBC.connections, c.from_ = "bee-b" ∧ c.to_ = "human") ∧
    (routeOutboundMail cfgBC dataDir0 0 st0 mailBH).1.humanInbox =
      st0.humanInbox ++ [{ mailBH with status := "delivered" }] :=
  canSendHuman_iff_edge_watcher_unchecked cfgBC dataDir0 0 st0 "bee-b" mailBH
    rfl

/-- Claim C3: with no edge from human to the recipient, mail.send answers
the no-route error, leaves the gateway state (so the human outbox)
untouched and performs no filesystem write, because the connection check
precedes the outbox push. -/
theorem mailSend_noRoute (cfg : SwarmConfig) (dataDir : List String)
    (now : Nat) (newId nowIso : String)
    (fileMeta : String → Option FileAttachment) (st : GatewayState)
    (to_ subject body : String) (atts : Option (List String))
    (hto : to_ ≠ "") (hsub : subject ≠ "") (hbody : body ≠ "")
    (hroute : canSendMail cfg "human" to_ = false) :
    mailSend cfg dataDir now newId nowIso fileMeta st to_ subject body atts =
      (st, [], .badRequest ("No connection from human to " ++ to_)) := by
  have h1 : (to_ == "") = false := beq_eq_false_iff_ne.mpr hto
  have h2 : (subject == "") = false := beq_eq_false_iff_ne.mpr hsub
  have h3 : (body == "") = false := beq_eq_false_iff_ne.mpr hbody
  simp [mailSend, h1, h2, h3, hroute]

/-- Claim C3 witness. -/
theorem mailSend_noRoute_witness :
    mailSend cfgBC dataDir0 0 "m-9" "t" (fun _ => none) st0 "bee-c" "s" "b"
      none =
      (st0, [], .badRequest "No connection from human to bee-c") :=
  mailSend_noRoute cfgBC dataDir0 0 "m-9" "t" (fun _ => none) st0 "bee-c" "s"
    "b" none (by decide) (by decide) (by decide) (by decide)

/-- Claim C4, counterexample: the routed mailHB is written straight into
the inbox directory of bee-b, and no rename appears anywhere in the
effects. -/
theorem renameIn_cex :
    writesInboxOf routedEffsHB dataDir0 "bee-b" = true ∧
    usesRename routedEffsHB = false := by decide

/-- Claim C4 (amended): routeMail writes the mail file at its final inbox
path directly with writeFile, and sendToBee does the same; no temporary
sibling path and no rename is involved in either write. -/
theorem routeMail_writesDirectly (cfg : SwarmConfig) (dataDir : List String)
    (now : Nat) (m : Mail) (st : GatewayState) (newId nowIso subject body : String)
    (hc : canSendMail cfg m.from_ m.to_ = true) (hh : m.to_ ≠ "human") :
    routeMail cfg dataDir now m =
      .ok [.mkdirp (dataDir ++ ["bees", m.to_, "inbox"]),
           .writeMailFile (dataDir ++ ["bees", m.to_, "inbox"])
             (mailFilename now m) m,
           .emit "mail:routed" m] ∧
    usesRename [.mkdirp (dataDir ++ ["bees", m.to_, "inbox"]),
                .writeMailFile (dataDir ++ ["bees", m.to_, "inbox"])
                  (mailFilename now m) m,
                .emit "mail:routed" m] = false ∧
    usesRename (sendToBee dataDir now newId nowIso st subject body).2.1
      = false := by
  have hb : (m.to_ == "human") = false := beq_eq_false_iff_ne.mpr hh
  refine ⟨?_, ?_, ?_⟩
  · simp [routeMail, hc, hb]
  · simp [usesRename]
  · simp [sendToBee, usesRename]

/-- Claim C4 witness. -/
theorem routeMail_writesDirectly_witness :
    routeMail cfgBC dataDir0 5 mailHB =
      .ok [.mkdirp (dataDir0 ++ ["bees", mailHB.to_, "inbox"]),
           .writeMailFile (dataDir0 ++ ["bees", mailHB.to_, "inbox"])
             (mailFilename 5 mailHB) mailHB,
           .emit "mail:routed" mailHB] ∧
    usesRename [.mkdirp (dataDir0 ++ ["bees", mailHB.to_, "inbox"]),
                .writeMailFile (dataDir0 ++ ["bees", mailHB.to_, "inbox"])
                  (mailFilename 5 mailHB) mailHB,
                .emit "mail:routed" mailHB] = false ∧
    usesRename (sendToBee dataDir0 5 "m-9" "t" st0 "s" "b").2.1 = false :=
  routeMail_writesDirectly cfgBC dataDir0 5 mailHB st0 "m-9" "t" "s" "b"
    (by decide) (by decide)

/-- Claim C5, counterexample: the corrupt file stays in the outbox, only
an error log is produced; there is no poison move and no failure event. -/
theorem poison_cex :
    processOutboxFile cfgBC dataDir0 0 st0
        { name := "170-bad.json", contents := none } =
      (st0, [.logError "Error processing outbox file"], .remains) ∧
    broadcastsFailed [.logError "Error processing outbox file"] = false := by
  decide

/-- Claim C5 (amended): a json outbox file whose read or parse fails is
only logged and left in place in the outbox (no poison subdirectory, no
unlink, no event), and the files after it in the same outbox are still
processed exactly as if the corrupt file were absent. -/
theorem corruptFile_staysInOutbox (cfg : SwarmConfig) (dataDir : List String)
    (now : Nat) (st : GatewayState) (name : String) (rest : List OutboxFile)
    (hjson : strEndsWith name ".json" = true) :
    processOutboxFile cfg dataDir now st { name := name, contents := none } =
      (st, [.logError "Error processing outbox file"], .remains) ∧
    processOutboxFiles cfg dataDir now st
        ({ name := name, contents := none } :: rest) =
      ((processOutboxFiles cfg dataDir now st rest).1,
       .logError "Error processing outbox file" ::
         (processOutboxFiles cfg dataDir now st rest).2.1,
       { name := name, contents := none } ::
         (processOutboxFiles cfg dataDir now st rest).2.2) := by
  have h1 : processOutboxFile cfg dataDir now st
      { name := name, contents := none } =
      (st, [.logError "Error processing outbox file"], .remains) := by
    simp [processOutboxFile, hjson]
  exact ⟨h1, by simp [processOutboxFiles, h1]⟩

/-- Claim C5 witness. -/
theorem corruptFile_staysInOutbox_witness :
    processOutboxFile cfgBC dataDir0 0 st0
        { name := "1-a.json", contents := none } =
      (st0, [.logError "Error processing outbox file"], .remains) ∧
    processOutboxFiles cfgBC dataDir0 0 st0
        ({ name := "1-a.json", contents := none } ::
         [{ name := "2-b.json", contents := some mailBH }]) =
      ((processOutboxFiles cfgBC dataDir0 0 st0
          [{ name := "2-b.json", contents := some mailBH }]).1,
       .logError "Error processing outbox file" ::
         (processOutboxFiles cfgBC dataDir0 0 st0
           [{ name := "2-b.json", contents := some mailBH }]).2.1,
       { name := "1-a.json", contents := none } ::
         (processOutboxFiles cfgBC dataDir0 0 st0
           [{ name := "2-b.json", contents := some mailBH }]).2.2) :=
  corruptFile_staysInOutbox cfgBC dataDir0 0 st0 "1-a.json"
    [{ name := "2-b.json", contents := some mailBH }] (by decide)

/-- Claim C6, counterexample: routeMail raises an error to its caller at
the concrete no-route input mailBC. -/
theorem routeMail_raises_cex :
    routeMail cfgBC dataDir0 0 mailBC =
      .error "No connection from bee-b to bee-c" := rfl

/-- Claim C6 (amended): routeMail does raise on topology rejection; it is
the bee-outbox caller that catches the exception and converts it into a
mail:failed broadcast, returning normally. -/
theorem routeMail_raises_callerCatches (cfg : SwarmConfig)
    (dataDir : List String) (now : Nat) (st : GatewayState) (m : Mail)
    (hc : canSendMail cfg m.from_ m.to_ = false) (hh : m.to_ ≠ "human") :
    routeMail cfg dataDir now m =
      .error ("No connection from " ++ m.from_ ++ " to " ++ m.to_) ∧
    broadcastsFailed (routeOutboundMail cfg dataDir now st m).2 = true := by
  rw [routeOutboundMail_noRoute_eq cfg dataDir now st m hc hh]
  exact ⟨routeMail_noRoute_eq cfg dataDir now m hc, by simp [broadcastsFailed]⟩

/-- Claim C6 witness. -/
theorem routeMail_raises_callerCatches_witness :
    routeMail cfgBC dataDir0 0 mailBC =
      .error ("No connection from " ++ mailBC.from_ ++ " to " ++ mailBC.to_) ∧
    broadcastsFailed (routeOutboundMail cfgBC dataDir0 0 st0 mailBC).2 = true :=
  routeMail_raises_callerCatches cfgBC dataDir0 0 st0 mailBC (by decide)
    (by decide)

/-- Claim C7: conn.add is idempotent, for the unidirectional and the
bidirectional variant alike: a second identical call leaves the connection
list unchanged. -/
theorem addConnection_idem (conns : List Connection) (f t : String)
    (b : Bool) :
    addConnection (addConnection conns f t b) f t b =
      addConnection conns f t b := by
  cases b with
  | false =>
      cases h : findConn conns f t with
      | some c => simp [addConnection, h]
      | none =>
          have h2 : findConn (conns ++ [{ from_ := f, to_ := t }]) f t =
              some { from_ := f, to_ := t } := by
            rw [findConn_append, h, findConn_singleton_self]
            rfl
          simp [addConnection, h, h2]
  | true =>
      obtain ⟨c₁, c₂, h1, h1b, h2, h2b⟩ := addConnection_bidir_matches conns f t
      have e1 := setBidirTrueFirst_eq_self (addConnection conns f t true) f t
        (by intro c hc; rw [h1] at hc; cases hc; exact h1b)
      have e2 := setBidirTrueFirst_eq_self (addConnection conns f t true) t f
        (by intro c hc; rw [h2] at hc; cases hc; exact h2b)
      set r := addConnection conns f t true with hr
      simp [addConnection, h1, h2, e1, e2]

/-- Claim C8, counterexample: in connsCX both directions of the pair
(x, y->z) are present, yet merge returns no entry at all for the pair:
the key of the unrelated first edge (x->y, z) collides with the key of
the pair, so the loop skips both of its directions. -/
theorem mergedKeyCollision_cex :
    findConn connsCX "x" "y->z" ≠ none ∧
    findConn connsCX "y->z" "x" ≠ none ∧
    (getMergedConnections connsCX).countP (touches "x" "y->z") = 0 := by
  decide

/-- Claim C8 (amended): provided the processed-set keys from + arrow + to
do not collide across the ordered pairs of endpoints of the list — which
holds in particular whenever no node id contains the arrow — merge
collapses a matched pair of directed edges into exactly one bidirectional
display entry whose source is the lexicographic minimum of the two node
ids, and returns an edge with no matching reverse unchanged with
bidirectional false. -/
theorem getMergedConnections_spec (conns : List Connection) (a b : String)
    (hinj : keysInjective conns) :
    (findConn conns a b ≠ none → findConn conns b a ≠ none →
      (getMergedConnections conns).countP (touches a b) = 1 ∧
      ({ from_ := if strLt a b then a else b,
         to_ := if strLt a b then b else a,
         bidirectional := some true } : Connection) ∈
        getMergedConnections conns) ∧
    (findConn conns a b ≠ none → findConn conns b a = none →
      ({ from_ := a, to_ := b, bidirectional := some false } : Connection) ∈
        getMergedConnections conns) := by
  unfold getMergedConnections
  constructor
  · intro h1 h2
    cases hf : findConn conns a b with
    | none => exact absurd hf h1
    | some c =>
        obtain ⟨hm, hfrom, hto⟩ := findConn_mem_and_match conns a b c hf
        have hab : (a, b) ∈ edgePairs conns := by
          have := (mem_edgePairs_of_mem c conns hm).1
          rwa [hfrom, hto] at this
        apply mergedLoop_pair_bidir conns a b h1 h2 hinj hab conns []
          (fun c hc => hc) (by simp) (by simp)
        exact ⟨c, hm, (touches_true_iff a b c).mpr (Or.inl ⟨hfrom, hto⟩)⟩
  · intro h1 h2
    cases hf : findConn conns a b with
    | none => exact absurd hf h1
    | some c =>
        obtain ⟨hm, hfrom, hto⟩ := findConn_mem_and_match conns a b c hf
        have hab : (a, b) ∈ edgePairs conns := by
          have := (mem_edgePairs_of_mem c conns hm).1
          rwa [hfrom, hto] at this
        apply mergedLoop_uni conns a b h2 hinj hab conns []
          (fun c hc => hc) (by simp) (by simp)
          ((findConn_none_iff conns b a).mp h2)
        exact ⟨c, hm, hfrom, hto⟩

/-- Claim C8 witness. -/
theorem getMergedConnections_spec_witness :
    ((getMergedConnections connsW).countP (touches "human" "bee-b") = 1 ∧
      ({ from_ := if strLt "human" "bee-b" then "human" else "bee-b",
         to_ := if strLt "human" "bee-b" then "bee-b" else "human",
         bidirectional := some true } : Connection) ∈
        getMergedConnections connsW) ∧
    ({ from_ := "bee-b", to_ := "bee-c",
       bidirectional := some false } : Connection) ∈
      getMergedConnections connsW :=
  ⟨(getMergedConnections_spec connsW "human" "bee-b" (by decide)).1
      (by decide) (by decide),
   (getMergedConnections_spec connsW "bee-b" "bee-c" (by decide)).2
      (by decide) (by decide)⟩

/-- Claim C9, counterexample: badCfg violates every validation rule of the
spec, yet putSwarm persists it unchanged and reports success. -/
theorem putSwarm_noValidation_cex :
    ¬ specValidConfig badCfg ∧
    putSwarm badCfg =
      (badCfg, [.writeConfigFile badCfg,
                .broadcastConfig "swarm:updated" badCfg]) :=
  ⟨by decide, rfl⟩

/-- Claim C9 (amended): setConfig and the swarm.put handler perform no
validation at all: every configuration, however malformed, is stored and
persisted unconditionally. -/
theorem setConfig_persistsUnconditionally (cfg : SwarmConfig) :
    setConfig cfg = (cfg, [.writeConfigFile cfg]) ∧
    putSwarm cfg =
      (cfg, [.writeConfigFile cfg, .broadcastConfig "swarm:updated" cfg]) :=
  ⟨rfl, rfl⟩

/-- Claim C10: when removeBee succeeds, the persisted configuration holds
no bee with the removed id and no connection touching it. -/
theorem removeBee_purges (cfg : SwarmConfig) (dataDir : List String)
    (beeId : String) (cfg' : SwarmConfig) (effs : List Effect)
    (h : removeBee cfg dataDir beeId = .ok (cfg', effs)) :
    (∀ b ∈ cfg'.bees, b.id ≠ beeId) ∧
    (∀ c ∈ cfg'.connections, c.from_ ≠ beeId ∧ c.to_ ≠ beeId) ∧
    Effect.writeConfigFile cfg' ∈ effs := by
  unfold removeBee at h
  cases hf : cfg.bees.find? (fun b => b.id == beeId) with
  | none => rw [hf] at h; cases h
  | some b =>
      rw [hf] at h
      injection h with h
      injection h with hcfg heffs
      subst hcfg
      subst heffs
      refine ⟨?_, ?_, ?_⟩
      · intro bee hb
        have hp := List.of_mem_filter hb
        simpa [bne_iff_ne] using hp
      · intro c hcm
        have hp := List.of_mem_filter hcm
        simp only [Bool.and_eq_true, bne_iff_ne] at hp
        exact hp
      · simp

/-- Claim C10 witness. -/
theorem removeBee_purges_witness :
    (∀ b ∈ cfgAfterRemove.bees, b.id ≠ "bee-c") ∧
    (∀ c ∈ cfgAfterRemove.connections,
      c.from_ ≠ "bee-c" ∧ c.to_ ≠ "bee-c") ∧
    Effect.writeConfigFile cfgAfterRemove ∈
      [Effect.writeConfigFile cfgAfterRemove,
       Effect.removeDir ["data", "bees", "bee-c"]] :=
  removeBee_purges cfgBC dataDir0 "bee-c" cfgAfterRemove
    [Effect.writeConfigFile cfgAfterRemove,
     Effect.removeDir ["data", "bees", "bee-c"]] rfl

end BuzyBeez
